import Mathlib

/-!
Shallow embedding of `include/boost/utility/select_by_size.hpp`.

The header is a pure compile-time facility, so the embedding models its
three layers directly:

* the tag family `case_<N>` (lines 97-98) through its only observable,
  `sizeof` — the function `sizeofCase`;
* the resolver `select_by_size<Size>` together with the specializations
  emitted by `SELECT_BY_SIZE_SPEC(n)` (lines 112-123): a specialization is
  a `Spec` record, and the resolver of a translation unit is a lookup over the
  list of emitted specializations;
* the preprocessor state across repeated inclusions of the header — the
  list of `SELECT_BY_SIZE_SPEC` invocations emitted so far and the state
  of the watermark macro `SELECT_BY_SIZE_MAX_SPECIALIZED` — with one
  inclusion step `includeTail` (lines 155-172) and a whole compilation
  unit and its sequence of inclusions folded by `runInclusions`. A
  `#define` stores tokens, not values: line 65 defines the watermark as
  the literal 2, but line 169 redefines it as an alias of the token
  `BOOST_SELECT_BY_SIZE_MAX_CASE`, so from then on it expands, at each
  later inclusion, to that inclusion's own clamped request, and the
  line 163 comparison reads bound > bound. The state therefore records
  whether lines 168-169 have run (`aliased`), and the watermark has a
  per-inclusion expansion value (`watermarkValue`).
-/

namespace BoostSelectBySize

/-- Storage size of a tag by template-recursion depth above the base case.
Depth 0 is the explicit specialization `case_<-1> { char c }` (line 98),
of size 1; depth k+1 is `case_<N> { char c1; case_<N-1> c2 }` (line 97),
of size 1 + sizeof(case_<N-1>): every member is a char, so size and
alignment are 1 and the struct has no padding. -/
def sizeofCaseAux : Nat → Nat
  | 0 => 1
  | k + 1 => 1 + sizeofCaseAux k

/-- sizeof(case_<n>) for n ≥ -1 (lines 97-98): case_<n> sits n + 1
template-recursion steps above case_<-1>. Indices below -1 never
instantiate in the source (infinite template recursion) and are clamped
here by Int.toNat; no claim uses them. -/
def sizeofCase (n : Int) : Nat :=
  sizeofCaseAux (n + 1).toNat

/-- One explicit specialization of select_by_size, as emitted by
SELECT_BY_SIZE_SPEC(n) (lines 112-123): its key is the size it
specializes on (detail::sizeof_case_n = sizeof(case_<n-1>), line 115),
and it carries the nested workaround constant type::value (line 119) and
the direct constant value (line 120). -/
structure Spec where
  size : Nat
  typeValue : Int
  value : Int
deriving DecidableEq, Repr

/-- The constant n - 1 placed in the nested struct type by
SELECT_BY_SIZE_SPEC(n) (line 119). -/
def specTypeValue (n : Int) : Int := n - 1

/-- The specialization emitted by SELECT_BY_SIZE_SPEC(n) (lines 112-123):
select_by_size< sizeof(case_<n-1>) > with type::value = n - 1 and
value = type::value. -/
def selectBySizeSpec (n : Int) : Spec :=
  ⟨sizeofCase (n - 1), specTypeValue n, specTypeValue n⟩

/-- Preprocessor state of one translation unit after some inclusions of
the header: whether lines 168-169 have run — i.e. whether
SELECT_BY_SIZE_MAX_SPECIALIZED still holds the literal 2 of line 65 or
has been redefined (line 169) as a token alias of
BOOST_SELECT_BY_SIZE_MAX_CASE — and the indices n of every
SELECT_BY_SIZE_SPEC(n) emitted so far, in emission order. -/
structure PPState where
  aliased : Bool
  specs : List Int
deriving DecidableEq, Repr

/-- State established by the include-guarded part of the header on first
inclusion: SELECT_BY_SIZE_MAX_SPECIALIZED defined as the literal 2
(line 65, the alias of line 169 not yet installed) and the three default
specializations SELECT_BY_SIZE_SPEC(0), (1), (2) (lines 127-129), i.e.
the cases -1, 0 and 1. -/
def initialState : PPState :=
  ⟨false, [0, 1, 2]⟩

/-- Lines 157-161: if BOOST_SELECT_BY_SIZE_MAX_CASE is undefined (none)
or below 2 before inclusion, it is redefined to 2. -/
def clampMaxCase : Option Int → Int
  | none => 2
  | some m => if m < 2 then 2 else m

/-- The file-iteration values produced by BOOST_PP_ITERATION_LIMITS
(lo, hi) (lines 165-167): lo, lo + 1, ..., hi, both bounds included. -/
def iterationIndices (lo hi : Int) : List Int :=
  (List.range (hi - lo + 1).toNat).map fun (k : Nat) => lo + (k : Int)

/-- Value SELECT_BY_SIZE_MAX_SPECIALIZED expands to where line 163 and
the iteration limits (line 165) read it, during an inclusion whose
clamped BOOST_SELECT_BY_SIZE_MAX_CASE is req: the literal 2 of line 65
until lines 168-169 have first run; afterwards, through the token alias
installed at line 169, the current clamped request itself. -/
def watermarkValue (st : PPState) (req : Option Int) : Int :=
  if st.aliased then clampMaxCase req else 2

/-- One run of the part of the header outside the include guards
(lines 155-172), given the state so far and the requested
BOOST_SELECT_BY_SIZE_MAX_CASE (none when left undefined): after clamping
(lines 157-161), if the clamped bound exceeds what the watermark macro
expands to (line 163) the file self-iterates over [watermark, bound]
emitting SELECT_BY_SIZE_SPEC(i + 1) at each iteration value i (lines
164-167 and 174) and then redefines the watermark macro as a token alias
of BOOST_SELECT_BY_SIZE_MAX_CASE (lines 168-169); otherwise nothing is
emitted and the state is unchanged. Once the alias is installed, line
163 compares the request to itself, so every later inclusion is a
silent no-op. -/
def includeTail (st : PPState) (req : Option Int) : PPState :=
  if watermarkValue st req < clampMaxCase req then
    ⟨true, st.specs ++
      (iterationIndices (watermarkValue st req) (clampMaxCase req)).map (fun i => i + 1)⟩
  else st

/-- Preprocessor state after a sequence of inclusions of the header with
the given BOOST_SELECT_BY_SIZE_MAX_CASE values (the macro is undone at
line 172, so each inclusion supplies its own, none = undefined). The
include-guarded part runs only on the first inclusion, yielding
initialState; every inclusion then runs the tail outside the guards. -/
def runInclusions (reqs : List (Option Int)) : PPState :=
  reqs.foldl includeTail initialState

/-- The lookup select_by_size<Size>::... (line 104): the first emitted
specialization for exactly that size, none when no specialization
matches (a compile error in the source). In a well-formed build there is
at most one. -/
def selectBySize (st : PPState) (size : Nat) : Option Spec :=
  (st.specs.map selectBySizeSpec).find? (fun s => s.size == size)

/-- The pair of constants declared by BOOST_SELECT_BY_SIZE(type_, name,
expr) (lines 133-145): boost_select_by_size_temp_name (the temp field)
and name itself. -/
structure SelectBySizeDecl where
  temp : Nat
  name : Int
deriving DecidableEq, Repr

/-- BOOST_SELECT_BY_SIZE(type_, name, expr) (lines 133-145), applied in a
translation unit with preprocessor state st to an expression of result
size sizeofExpr: first boost_select_by_size_temp_name = sizeof(expr)
(lines 134-137), then name = select_by_size<temp>::value (lines
138-144); none when the lookup has no specialization (a compile error in
the source). The integral type type_ only casts the constant and is not
modelled. -/
def boostSelectBySize (st : PPState) (sizeofExpr : Nat) : Option SelectBySizeDecl :=
  let temp := sizeofExpr
  (selectBySize st temp).map fun s => ⟨temp, s.value⟩

/-- Well-formedness maintained across inclusions: every emitted
SELECT_BY_SIZE_SPEC index is nonnegative (the preprocessor library
cannot form negative ones, line 111). -/
def WFState (st : PPState) : Prop :=
  ∀ n ∈ st.specs, 0 ≤ n

/-! Helper lemmas. -/

theorem sizeofCaseAux_eq (k : Nat) : sizeofCaseAux k = k + 1 := by
  induction k with
  | zero => rfl
  | succ k ih =>
    show 1 + sizeofCaseAux k = k + 1 + 1
    rw [ih]
    omega

theorem sizeofCase_eq (n : Int) : sizeofCase n = (n + 1).toNat + 1 := by
  unfold sizeofCase
  exact sizeofCaseAux_eq _

theorem sizeofCase_inj {a b : Int} (ha : -1 ≤ a) (hb : -1 ≤ b)
    (h : sizeofCase a = sizeofCase b) : a = b := by
  rw [sizeofCase_eq, sizeofCase_eq] at h
  omega

theorem le_of_mem_iterationIndices {lo hi i : Int}
    (h : i ∈ iterationIndices lo hi) : lo ≤ i := by
  unfold iterationIndices at h
  obtain ⟨k, _, rfl⟩ := List.mem_map.1 h
  omega

theorem two_le_clampMaxCase (req : Option Int) : 2 ≤ clampMaxCase req := by
  cases req with
  | none => exact le_refl 2
  | some m =>
    show 2 ≤ if m < 2 then 2 else m
    by_cases h : m < 2
    · rw [if_pos h]
    · rw [if_neg h]
      omega

theorem two_le_watermarkValue (st : PPState) (req : Option Int) :
    2 ≤ watermarkValue st req := by
  unfold watermarkValue
  split
  · exact two_le_clampMaxCase req
  · exact le_refl 2

theorem wf_initialState : WFState initialState := by
  intro n hn
  have hn' : n = 0 ∨ n = 1 ∨ n = 2 := by
    have hm : n ∈ ([0, 1, 2] : List Int) := hn
    simpa using hm
  omega

theorem wf_includeTail (st : PPState) (req : Option Int) (h : WFState st) :
    WFState (includeTail st req) := by
  unfold includeTail
  split
  · intro n hn
    simp only [List.mem_append] at hn
    rcases hn with hn | hn
    · exact h n hn
    · obtain ⟨i, hi, rfl⟩ := List.mem_map.1 hn
      have h2 := le_of_mem_iterationIndices hi
      have h3 := two_le_watermarkValue st req
      omega
  · exact h

theorem wf_foldl (reqs : List (Option Int)) (st : PPState) (h : WFState st) :
    WFState (reqs.foldl includeTail st) := by
  induction reqs generalizing st with
  | nil => exact h
  | cons r rs ih => exact ih _ (wf_includeTail st r h)

theorem wf_runInclusions (reqs : List (Option Int)) :
    WFState (runInclusions reqs) :=
  wf_foldl reqs initialState wf_initialState

theorem find_eq_of_mem_of_unique {α : Type} (p : α → Bool) (x : α)
    (l : List α) (hx : x ∈ l) (hpx : p x = true)
    (huniq : ∀ y ∈ l, p y = true → y = x) : l.find? p = some x := by
  induction l with
  | nil => cases hx
  | cons a l ih =>
    by_cases hpa : p a = true
    · rw [List.find?_cons_of_pos _ hpa]
      rw [huniq a (List.mem_cons_self a l) hpa]
    · rw [List.find?_cons_of_neg _ (by simpa using hpa)]
      rcases List.mem_cons.1 hx with rfl | hx'
      · exact absurd hpx hpa
      · exact ih hx' fun y hy hpy => huniq y (List.mem_cons_of_mem _ hy) hpy

theorem includeTail_of_le (st : PPState) (req : Option Int)
    (h : clampMaxCase req ≤ watermarkValue st req) : includeTail st req = st := by
  unfold includeTail
  rw [if_neg (by omega)]

theorem aliased_of_changed (st : PPState) (req : Option Int) :
    (includeTail st req).aliased = true ∨ includeTail st req = st := by
  unfold includeTail
  split
  · exact Or.inl rfl
  · exact Or.inr rfl

theorem includeTail_of_aliased (st : PPState) (req : Option Int)
    (h : st.aliased = true) : includeTail st req = st := by
  apply includeTail_of_le
  unfold watermarkValue
  rw [h, if_pos rfl]

theorem includeTail_idem (st : PPState) (req : Option Int) :
    includeTail (includeTail st req) req = includeTail st req := by
  rcases aliased_of_changed st req with h | h
  · exact includeTail_of_aliased _ req h
  · rw [h]
    exact h

/-! Claim theorems. -/

/-- C2: the tag sizes are a strictly increasing, injective function of the
index: for indices -1 ≤ n1 < n2, sizeof(case_<n1>) < sizeof(case_<n2>);
for n1 ≠ n2 (both ≥ -1) the sizes differ; case_<n> for n ≥ 0 occupies one
unit more storage than case_<n-1>; and case_<-1> is the minimal base case
of size 1. -/
theorem case_sizes_strictly_increasing :
    (∀ n1 n2 : Int, -1 ≤ n1 → n1 < n2 → sizeofCase n1 < sizeofCase n2) ∧
    (∀ n1 n2 : Int, -1 ≤ n1 → -1 ≤ n2 → n1 ≠ n2 → sizeofCase n1 ≠ sizeofCase n2) ∧
    (∀ n : Int, 0 ≤ n → sizeofCase n = 1 + sizeofCase (n - 1)) ∧
    sizeofCase (-1) = 1 := by
  refine ⟨?_, ?_, ?_, rfl⟩
  · intro n1 n2 h1 h2
    rw [sizeofCase_eq, sizeofCase_eq]
    omega
  · intro n1 n2 h1 h2 hne
    rw [sizeofCase_eq, sizeofCase_eq]
    omega
  · intro n hn
    rw [sizeofCase_eq, sizeofCase_eq]
    omega

/-- Witness for C2 at concrete indices. -/
theorem case_sizes_strictly_increasing_witness :
    ((-1 : Int) ≤ 3 ∧ (3 : Int) < 5 ∧ sizeofCase 3 < sizeofCase 5) ∧
    ((0 : Int) ≤ 4 ∧ sizeofCase 4 = 1 + sizeofCase 3) :=
  ⟨⟨by decide, by decide,
      case_sizes_strictly_increasing.1 3 5 (by decide) (by decide)⟩,
    ⟨by decide, case_sizes_strictly_increasing.2.2.1 4 (by decide)⟩⟩

/-- C1: for every index N in the generated range — i.e. whenever
SELECT_BY_SIZE_SPEC(N + 1) has been emitted in the translation unit by
some sequence of inclusions — N is at least -1 and looking up
select_by_size at sizeof(case_<N>) resolves to exactly that
specialization, whose value constant is N. -/
theorem resolve_generated_index (reqs : List (Option Int)) (N : Int)
    (h : N + 1 ∈ (runInclusions reqs).specs) :
    -1 ≤ N ∧
    selectBySize (runInclusions reqs) (sizeofCase N) = some (selectBySizeSpec (N + 1)) ∧
    (selectBySizeSpec (N + 1)).value = N := by
  have hwf := wf_runInclusions reqs
  have hN1 : 0 ≤ N + 1 := hwf _ h
  refine ⟨by omega, ?_, ?_⟩
  · unfold selectBySize
    apply find_eq_of_mem_of_unique
    · exact List.mem_map_of_mem _ h
    · show ((selectBySizeSpec (N + 1)).size == sizeofCase N) = true
      have : N + 1 - 1 = N := by omega
      simp [selectBySizeSpec, this]
    · intro y hy hpy
      obtain ⟨m, hm, rfl⟩ := List.mem_map.1 hy
      have hm0 : 0 ≤ m := hwf m hm
      have hsz : sizeofCase (m - 1) = sizeofCase N := by
        simpa [selectBySizeSpec] using hpy
      have : m - 1 = N := sizeofCase_inj (by omega) (by omega) hsz
      have : m = N + 1 := by omega
      rw [this]
  · show specTypeValue (N + 1) = N
    unfold specTypeValue
    omega

/-- Witness for C1: in a unit first included with bound 5, index 4 is
generated and resolves to itself. -/
theorem resolve_generated_index_witness :
    (4 : Int) + 1 ∈ (runInclusions [some 5]).specs ∧
    (-1 ≤ (4 : Int) ∧
      selectBySize (runInclusions [some 5]) (sizeofCase 4) =
        some (selectBySizeSpec 5) ∧
      (selectBySizeSpec 5).value = 4) :=
  ⟨by decide, resolve_generated_index [some 5] 4 (by decide)⟩

/-- C3 (code bug): including the header first with
BOOST_SELECT_BY_SIZE_MAX_CASE 3 and then with 4 does not extend the
resolver: the first inclusion redefines the watermark macro as a token
alias of BOOST_SELECT_BY_SIZE_MAX_CASE (line 169), so during the second
inclusion line 163 compares 4 > 4, nothing is emitted, the state is
unchanged — and the lookup at sizeof(case_<4>), which the claim says the
extended resolver handles, has no specialization and fails to
compile. -/
theorem reextension_silent_noop :
    (runInclusions [some 3]).specs = [0, 1, 2, 3, 4] ∧
    runInclusions [some 3, some 4] = runInclusions [some 3] ∧
    selectBySize (runInclusions [some 3, some 4]) (sizeofCase 4) = none := by
  refine ⟨by decide, by decide, by decide⟩

/-- C4 (counterexample): after a default inclusion of the header the
lookup at sizeof(case_<2>) has no specialization — the iteration at
lines 163-170 runs only for a requested bound strictly above the
watermark 2, so no SELECT_BY_SIZE_SPEC(3) is emitted and case 2 is not
predefined. -/
theorem default_inclusion_case_two_unresolved :
    selectBySize (runInclusions [none]) (sizeofCase 2) = none := by
  decide

/-- C4 (amended): after a default inclusion of the header (no bound
requested, watermark at its initial value 2) the resolver is predefined
exactly for the built-in cases -1, 0 and 1 — select_by_size is
specialized for sizeof(case_<-1>), sizeof(case_<0>) and sizeof(case_<1>)
with values -1, 0 and 1 — and not for sizeof(case_<2>). -/
theorem default_inclusion_builtin_cases :
    runInclusions [none] = initialState ∧
    selectBySize (runInclusions [none]) (sizeofCase (-1)) = some (selectBySizeSpec 0) ∧
    selectBySize (runInclusions [none]) (sizeofCase 0) = some (selectBySizeSpec 1) ∧
    selectBySize (runInclusions [none]) (sizeofCase 1) = some (selectBySizeSpec 2) ∧
    (selectBySizeSpec 0).value = -1 ∧
    (selectBySizeSpec 1).value = 0 ∧
    (selectBySizeSpec 2).value = 1 ∧
    selectBySize (runInclusions [none]) (sizeofCase 2) = none := by
  refine ⟨by decide, by decide, by decide, by decide, by decide, by decide,
    by decide, by decide⟩

/-- C5: the generator is idempotent — when the requested (clamped) bound
is at most what the watermark macro expands to at line 163 during that
inclusion, nothing is emitted and the state is unchanged; consequently,
including the header twice with the same bound produces exactly the
state of a single inclusion. -/
theorem generator_idempotent :
    (∀ (st : PPState) (req : Option Int),
        clampMaxCase req ≤ watermarkValue st req → includeTail st req = st) ∧
    (∀ (reqs : List (Option Int)) (req : Option Int),
        runInclusions (reqs ++ [req, req]) = runInclusions (reqs ++ [req])) := by
  refine ⟨fun st req h => includeTail_of_le st req h, ?_⟩
  intro reqs req
  unfold runInclusions
  rw [List.foldl_append, List.foldl_append]
  simp only [List.foldl_cons, List.foldl_nil]
  exact includeTail_idem _ req

/-- Witness for C5 at concrete states and bounds. -/
theorem generator_idempotent_witness :
    (clampMaxCase (some 2) ≤ watermarkValue initialState (some 2) ∧
      includeTail initialState (some 2) = initialState) ∧
    runInclusions ([] ++ [some 3, some 3]) = runInclusions ([] ++ [some 3]) :=
  ⟨⟨by decide, generator_idempotent.1 initialState (some 2) (by decide)⟩,
    generator_idempotent.2 [] (some 3)⟩

/-- C6: if BOOST_SELECT_BY_SIZE_MAX_CASE is undefined or below the
minimum 2 before inclusion, it is clamped upward to 2, and the inclusion
generates exactly what an inclusion requesting the minimum bound 2
generates. -/
theorem max_case_clamped :
    clampMaxCase none = 2 ∧
    (∀ m : Int, m < 2 → clampMaxCase (some m) = 2) ∧
    (∀ (st : PPState) (req : Option Int), (∀ m, req = some m → m < 2) →
        includeTail st req = includeTail st (some 2)) := by
  refine ⟨rfl, ?_, ?_⟩
  · intro m hm
    show (if m < 2 then 2 else m) = 2
    rw [if_pos hm]
  · intro st req hreq
    have hc : clampMaxCase req = 2 := by
      cases req with
      | none => rfl
      | some m =>
        have hm := hreq m rfl
        show (if m < 2 then 2 else m) = 2
        rw [if_pos hm]
    have h2 : clampMaxCase (some 2) = 2 := by
      unfold clampMaxCase
      norm_num
    unfold includeTail watermarkValue
    rw [hc, h2]

/-- Witness for C6: a bound of 0 is clamped to 2 and generates the same
state as a bound of 2. -/
theorem max_case_clamped_witness :
    ((0 : Int) < 2 ∧ clampMaxCase (some 0) = 2) ∧
    includeTail initialState (some 0) = includeTail initialState (some 2) :=
  ⟨⟨by decide, max_case_clamped.2.1 0 (by decide)⟩,
    max_case_clamped.2.2 initialState (some 0)
      (by intro m hm; injection hm with h; omega)⟩

/-- C7: partiality outside the generated domain — after any sequence of
inclusions, the lookup select_by_size<S> resolves (returns a
specialization) if and only if S equals the size keyed by some emitted
SELECT_BY_SIZE_SPEC, i.e. iff S is a generated tag size; for any other S
there is no matching specialization, the sole failure mode. -/
theorem resolver_defined_iff_generated (reqs : List (Option Int)) (S : Nat) :
    (selectBySize (runInclusions reqs) S).isSome = true ↔
    ∃ n ∈ (runInclusions reqs).specs, (selectBySizeSpec n).size = S := by
  unfold selectBySize
  rw [List.find?_isSome]
  constructor
  · rintro ⟨s, hs, hp⟩
    obtain ⟨n, hn, rfl⟩ := List.mem_map.1 hs
    exact ⟨n, hn, by simpa using hp⟩
  · rintro ⟨n, hn, hsize⟩
    exact ⟨selectBySizeSpec n, List.mem_map_of_mem _ hn, by simp [hsize]⟩

/-- C8 (code bug): the watermark is not monotone and a later, strictly
larger bound advances nothing. After a first generating inclusion with
bound 5, line 169 has made SELECT_BY_SIZE_MAX_SPECIALIZED a token alias
of BOOST_SELECT_BY_SIZE_MAX_CASE, so an inclusion with the larger bound
7 reads watermark 7, compares 7 > 7 at line 163 and emits nothing — the
state is unchanged and sizeof(case_<7>) stays unresolvable — while the
value the watermark macro expands to merely tracks each request: 7
during the bound-7 inclusion, then 3 during a following bound-3
inclusion, a decrease. -/
theorem watermark_not_monotone :
    runInclusions [some 5, some 7] = runInclusions [some 5] ∧
    selectBySize (runInclusions [some 5, some 7]) (sizeofCase 7) = none ∧
    watermarkValue (runInclusions [some 5]) (some 7) = 7 ∧
    watermarkValue (runInclusions [some 5, some 7]) (some 3) = 3 := by
  refine ⟨by decide, by decide, by decide, by decide⟩

/-- C9: whenever BOOST_SELECT_BY_SIZE(type_, name, expr) compiles, the
intermediate constant boost_select_by_size_temp_name equals sizeof(expr)
and the declared constant name equals
select_by_size< sizeof(expr) >::value. -/
theorem select_by_size_macro_value (st : PPState) (sizeofExpr : Nat)
    (d : SelectBySizeDecl) (h : boostSelectBySize st sizeofExpr = some d) :
    d.temp = sizeofExpr ∧
    ∃ s, selectBySize st sizeofExpr = some s ∧ d.name = s.value := by
  have h' : (selectBySize st sizeofExpr).map
      (fun s => (⟨sizeofExpr, s.value⟩ : SelectBySizeDecl)) = some d := h
  cases hs : selectBySize st sizeofExpr with
  | none =>
    rw [hs] at h'
    simp at h'
  | some s =>
    rw [hs] at h'
    simp only [Option.map_some', Option.some.injEq] at h'
    rw [← h']
    exact ⟨rfl, s, rfl, rfl⟩

/-- Witness for C9: in a default unit, applied to an expression of
size 2 = sizeof(case_<0>), the macro declares temp = 2 and name = 0. -/
theorem select_by_size_macro_value_witness :
    boostSelectBySize (runInclusions [none]) 2 = some ⟨2, 0⟩ ∧
    ((⟨2, 0⟩ : SelectBySizeDecl).temp = 2 ∧
      ∃ s, selectBySize (runInclusions [none]) 2 = some s ∧
        (⟨2, 0⟩ : SelectBySizeDecl).name = s.value) :=
  ⟨by decide, select_by_size_macro_value (runInclusions [none]) 2 ⟨2, 0⟩ (by decide)⟩

/-- C10: any specialization the resolver returns has its direct constant
equal to the nested workaround constant — select_by_size<S>::value =
select_by_size<S>::type::value. -/
theorem value_eq_type_value (reqs : List (Option Int)) (S : Nat) (s : Spec)
    (h : selectBySize (runInclusions reqs) S = some s) :
    s.value = s.typeValue := by
  unfold selectBySize at h
  have hmem := List.mem_of_find?_eq_some h
  obtain ⟨n, _, rfl⟩ := List.mem_map.1 hmem
  rfl

/-- Witness for C10 at the generated size 1 = sizeof(case_<-1>). -/
theorem value_eq_type_value_witness :
    selectBySize (runInclusions [none]) 1 = some (selectBySizeSpec 0) ∧
    (selectBySizeSpec 0).value = (selectBySizeSpec 0).typeValue :=
  ⟨by decide, value_eq_type_value [none] 1 (selectBySizeSpec 0) (by decide)⟩

end BoostSelectBySize
